import Mathlib

/-!
Verification of the change-impact resolver of `tftargets` (`app.go`, `cli.go`).

The Go code is shallowly embedded: paths and module-source strings are Lean
`String`s, Go's `Set[string]` is represented by `List String` with set-style
insertion (membership is what all theorems are about), external collaborators
(the filesystem walk, `tfconfig.LoadModule`, git) are explicit inputs, and the
unbounded recursion of `getModuleCalls` is modelled with a fuel parameter
(`none` = the recursion-depth budget was exhausted).  String primitives used
by the Go code (`strings.HasPrefix`, `strings.Contains`, `strings.HasSuffix`,
`filepath.Clean`, `filepath.Join`, `filepath.Dir`, the registry regular
expression) are re-implemented structurally over `List Char` so that every
definition evaluates by kernel reduction.
-/

/-- Go `strings.HasPrefix source pre` (byte-wise; on these ASCII patterns
character-wise comparison coincides). -/
def strStartsWith (s pre : String) : Bool :=
  List.isPrefixOf pre.data s.data

/-- Go `strings.HasSuffix s suf`. -/
def strEndsWith (s suf : String) : Bool :=
  List.isSuffixOf suf.data s.data

/-- Does `needle` occur as a contiguous sublist of `hay`? -/
def hasSubList (needle : List Char) : List Char → Bool
  | [] => List.isPrefixOf needle []
  | c :: cs => List.isPrefixOf needle (c :: cs) || hasSubList needle cs

/-- Go `strings.Contains s sub`. -/
def strContains (s sub : String) : Bool :=
  hasSubList sub.data s.data

/-- Split a character list on `'/'` (Go path elements before cleaning). -/
def splitOnSlash : List Char → List (List Char)
  | [] => [[]]
  | c :: cs =>
    if c = '/' then [] :: splitOnSlash cs
    else
      match splitOnSlash cs with
      | [] => [[c]]
      | g :: gs => (c :: g) :: gs

/-- Join path elements with `'/'`. -/
def joinSlash : List (List Char) → List Char
  | [] => []
  | [e] => e
  | e :: rest => e ++ '/' :: joinSlash rest

/-- The element loop of Go `path/filepath.Clean` (Unix separator), with the
output kept as a reversed stack (head = most recently emitted element):
empty and `.` elements are dropped, `..` pops a poppable element, is dropped
at the root, and is kept otherwise. -/
def cleanStack (rooted : Bool) : List (List Char) → List (List Char) → List (List Char)
  | out, [] => out
  | out, e :: rest =>
    if e = [] ∨ e = ['.'] then cleanStack rooted out rest
    else if e = ['.', '.'] then
      match out with
      | top :: out2 =>
        if top = ['.', '.'] then cleanStack rooted (e :: top :: out2) rest
        else cleanStack rooted out2 rest
      | [] => if rooted then cleanStack rooted [] rest else cleanStack rooted [e] rest
    else cleanStack rooted (e :: out) rest

/-- Go `path/filepath.Clean` for the Unix separator. -/
def pathClean (p : String) : String :=
  match p.data with
  | [] => "."
  | c :: cs =>
    let rooted := c = '/'
    let out := (cleanStack rooted [] (splitOnSlash (c :: cs))).reverse
    if rooted then String.mk ('/' :: joinSlash out)
    else if joinSlash out = [] then "."
    else String.mk (joinSlash out)

/-- Go `path/filepath.Join(a, b)`: empty elements are dropped, the rest are
joined with the separator and cleaned; all-empty input yields `""`. -/
def filepathJoin (a b : String) : String :=
  if a.data = [] then
    if b.data = [] then "" else pathClean b
  else if b.data = [] then pathClean a
  else pathClean (String.mk (a.data ++ '/' :: b.data))

/-- The characters of `p` up to and including the last `'/'` (Go
`filepath.Split`'s directory part). -/
def dirChars (p : List Char) : List Char :=
  (List.dropWhile (fun c => ¬ c = '/') p.reverse).reverse

/-- Go `path/filepath.Dir`. -/
def filepathDir (p : String) : String :=
  pathClean (String.mk (dirChars p.data))

/-- The module source categories of `app.go` (`ModuleSourceType`). -/
inductive ModuleSourceType where
  | Local
  | Registry
  | Git
  | GitHub
  | HTTP
  | S3
  | GCS
  | Mercurial
  | Unknown
deriving DecidableEq, Repr

/-- The character class `[a-zA-Z0-9_-]` of the registry pattern. -/
def isRegistryChar (c : Char) : Bool :=
  c.isAlpha || c.isDigit || c == '_' || c == '-'

/-- Consume one non-empty run of registry characters; `none` when the list
does not start with a registry character. -/
def takeSegRest : List Char → Option (List Char)
  | [] => none
  | c :: cs => if isRegistryChar c then some (List.dropWhile isRegistryChar cs) else none

/-- The anchored registry regular expression of `app.go`,
`[a-zA-Z0-9_-]+/[a-zA-Z0-9_-]+/[a-zA-Z0-9_-]+(//.*)?` , under Go RE2
semantics: since `'/'` is not in the character class, the greedy segment
decomposition is the only possible one, so this backtracking-free matcher is
equivalent to the regex; and because RE2's `.` does not match a newline while
`$` (without the multiline flag) anchors only at the end of the text, the
optional `//` suffix matches exactly when it contains no newline. -/
def registryPatternMatch (s : String) : Bool :=
  match takeSegRest s.data with
  | none => false
  | some r1 =>
    match r1 with
    | '/' :: r2 =>
      match takeSegRest r2 with
      | none => false
      | some r3 =>
        match r3 with
        | '/' :: r4 =>
          match takeSegRest r4 with
          | none => false
          | some r5 =>
            match r5 with
            | [] => true
            | '/' :: '/' :: t => t.all (fun c => !(c == '\n'))
            | _ => false
        | _ => false
    | _ => false

/-- Modelled from the spec, §4.1 rule 6 as written (and as the claim states
it): three `/`-separated segments of the class, "optionally followed by `//`
and an arbitrary subdirectory suffix" — with no restriction on the suffix. -/
def registryClaimMatch (s : String) : Bool :=
  match takeSegRest s.data with
  | none => false
  | some r1 =>
    match r1 with
    | '/' :: r2 =>
      match takeSegRest r2 with
      | none => false
      | some r3 =>
        match r3 with
        | '/' :: r4 =>
          match takeSegRest r4 with
          | none => false
          | some r5 =>
            match r5 with
            | [] => true
            | '/' :: '/' :: _ => true
            | _ => false
        | _ => false
    | _ => false

/-- The registry pattern of the amended claim: three `/`-separated segments
of the class, optionally followed by `//` and a suffix containing no newline
(the bound forced by RE2's `.`-excludes-newline and end-of-text `$`). -/
def registryAmendedMatch (s : String) : Bool :=
  match takeSegRest s.data with
  | none => false
  | some r1 =>
    match r1 with
    | '/' :: r2 =>
      match takeSegRest r2 with
      | none => false
      | some r3 =>
        match r3 with
        | '/' :: r4 =>
          match takeSegRest r4 with
          | none => false
          | some r5 =>
            match r5 with
            | [] => true
            | '/' :: '/' :: t => t.all (fun c => !(c == '\n'))
            | _ => false
        | _ => false
    | _ => false

/-- `DetectModuleSourceType` of `app.go`: the priority-ordered cascade of
syntactic tests on the module source string. -/
def DetectModuleSourceType (source : String) : ModuleSourceType :=
  if strStartsWith source "./" || strStartsWith source "../" then ModuleSourceType.Local
  else if strStartsWith source "git::" then ModuleSourceType.Git
  else if strStartsWith source "hg::" then ModuleSourceType.Mercurial
  else if strStartsWith source "s3::" then ModuleSourceType.S3
  else if strStartsWith source "gcs::" then ModuleSourceType.GCS
  else if strStartsWith source "http://" || strStartsWith source "https://" then ModuleSourceType.HTTP
  else if strStartsWith source "github.com/" then ModuleSourceType.GitHub
  else if strStartsWith source "git@" then ModuleSourceType.Git
  else if registryPatternMatch source then ModuleSourceType.Registry
  else ModuleSourceType.Unknown

example : DetectModuleSourceType "./modules/net" = ModuleSourceType.Local := by decide
example : DetectModuleSourceType "../shared" = ModuleSourceType.Local := by decide
example : DetectModuleSourceType "git::https://example.com/x.git" = ModuleSourceType.Git := by decide
example : DetectModuleSourceType "hg::http://example.com/x" = ModuleSourceType.Mercurial := by decide
example : DetectModuleSourceType "s3::https://s3:x" = ModuleSourceType.S3 := by decide
example : DetectModuleSourceType "gcs::https://www" = ModuleSourceType.GCS := by decide
example : DetectModuleSourceType "http://example.com/a" = ModuleSourceType.HTTP := by decide
example : DetectModuleSourceType "https://example.com/a" = ModuleSourceType.HTTP := by decide
example : DetectModuleSourceType "github.com/a/b" = ModuleSourceType.GitHub := by decide
example : DetectModuleSourceType "git@github.com:a/b.git" = ModuleSourceType.Git := by decide
example : DetectModuleSourceType "hashicorp/consul/aws" = ModuleSourceType.Registry := by decide
example : DetectModuleSourceType "terraform-aws-modules/iam/aws//modules/iam-account" = ModuleSourceType.Registry := by decide
example : DetectModuleSourceType "a/b/c/d" = ModuleSourceType.Unknown := by decide
example : DetectModuleSourceType "" = ModuleSourceType.Unknown := by decide
example : DetectModuleSourceType "/abs/path" = ModuleSourceType.Unknown := by decide
example : pathClean "a/./" = "a" := by decide
example : pathClean "a/b/../c" = "a/c" := by decide
example : filepathJoin "a" "./" = "a" := by decide
example : filepathJoin "a" "./b" = "a/b" := by decide
example : filepathJoin "a/b" "../" = "a" := by decide
example : filepathDir "A/x.tf" = "A" := by decide
example : filepathDir "x.tf" = "." := by decide
example : filepathDir "/c" = "/" := by decide

/-- One `.tf` file as seen by the scanner's walk: its path, whether
`hclparse.ParseHCLFile` succeeds on it, and whether `hasTerraformBlock`
holds of its body (only consulted when the parse succeeds — the Go code
returns early on parse errors). -/
structure TfFile where
  path : String
  parseOk : Bool
  hasTfBlock : Bool

/-- Go `Set[string].Add` on the list representation: insert if absent. -/
def setAdd (l : List String) (x : String) : List String :=
  if x ∈ l then l else l ++ [x]

/-- `findTargetCandidates` of `app.go`.  The argument is the outcome of
`filepath.Walk` over the search path: `Except.error ()` when the tree cannot
be walked (the walk callback propagates the error), `Except.ok files` when it
yields the listed files.  A file whose name does not end in `.tf` is ignored;
a file that fails to parse is skipped (`return nil`); a parsed file with a
`terraform` block marks its directory; directories containing
`.terragrunt-cache` are filtered out of the result. -/
def findTargetCandidates (walkResult : Except Unit (List TfFile)) :
    Except Unit (List String) :=
  match walkResult with
  | Except.error e => Except.error e
  | Except.ok files =>
    let dirs := files.foldl
      (fun acc f =>
        if strEndsWith f.path ".tf" && f.parseOk && f.hasTfBlock then
          setAdd acc (filepathDir f.path)
        else acc) []
    Except.ok (dirs.filter (fun d => !(strContains d ".terragrunt-cache")))

/-- A module call as reported by `tfconfig.LoadModule`: block name and
source string. -/
structure ModuleCall where
  name : String
  source : String

/-- The filesystem as seen by the closure builder: for each directory,
either the module-call list of `tfconfig.LoadModule(dir)` or a load error
(`diags.HasErrors()`). -/
def ModuleFS : Type := String → Except Unit (List ModuleCall)

/-- The body of the `for _, mc := range module.ModuleCalls` loop of
`getModuleCalls`, abstracted over the recursive call `recur`: a local source
is recursed into (its dependencies and the joined path are added, an error or
exhausted budget aborts the loop), any other source only adds the declaring
directory `dir`. -/
def goCallsList (recur : String → Option (Except Unit (List String)))
    (dir : String) : List ModuleCall → Option (Except Unit (List String))
  | [] => some (Except.ok [])
  | mc :: rest =>
    if DetectModuleSourceType mc.source = ModuleSourceType.Local then
      match recur (filepathJoin dir mc.source) with
      | none => none
      | some (Except.error e) => some (Except.error e)
      | some (Except.ok deps) =>
        match goCallsList recur dir rest with
        | none => none
        | some (Except.error e) => some (Except.error e)
        | some (Except.ok restCalls) =>
          some (Except.ok (deps ++ filepathJoin dir mc.source :: restCalls))
    else
      match goCallsList recur dir rest with
      | none => none
      | some (Except.error e) => some (Except.error e)
      | some (Except.ok restCalls) => some (Except.ok (dir :: restCalls))

/-- `getModuleCalls` of `app.go`, fuel-indexed: `none` means the recursion
budget ran out (the Go original recurses unboundedly), `some (Except.error ())`
mirrors the `failed to load module` error, `some (Except.ok calls)` the
returned set of directories. -/
def getModuleCalls (fs : ModuleFS) : Nat → String → Option (Except Unit (List String))
  | 0, _ => none
  | fuel + 1, dir =>
    match fs dir with
    | Except.error _ => some (Except.error ())
    | Except.ok mcs => goCallsList (fun d => getModuleCalls fs fuel d) dir mcs

/-- Instrumentation of the loop body: the list of directories passed to the
recursive `getModuleCalls` call, together with the recursion targets reported
inside each such call (`recurArgs`); mirrors `goCallsList` including its
early exit on error or exhausted budget. -/
def goRecList (recur : String → Option (Except Unit (List String)))
    (recurArgs : String → List String) (dir : String) : List ModuleCall → List String
  | [] => []
  | mc :: rest =>
    if DetectModuleSourceType mc.source = ModuleSourceType.Local then
      match recur (filepathJoin dir mc.source) with
      | none => filepathJoin dir mc.source :: recurArgs (filepathJoin dir mc.source)
      | some (Except.error _) =>
        filepathJoin dir mc.source :: recurArgs (filepathJoin dir mc.source)
      | some (Except.ok _) =>
        (filepathJoin dir mc.source :: recurArgs (filepathJoin dir mc.source)) ++
          goRecList recur recurArgs dir rest
    else goRecList recur recurArgs dir rest

/-- The directories on which `getModuleCalls` is recursively invoked when run
on `dir` with the given fuel (the top-level argument `dir` itself excluded). -/
def getModuleCallsRec (fs : ModuleFS) : Nat → String → List String
  | 0, _ => []
  | fuel + 1, dir =>
    match fs dir with
    | Except.error _ => []
    | Except.ok mcs =>
      goRecList (fun d => getModuleCalls fs fuel d)
        (fun d => getModuleCallsRec fs fuel d) dir mcs

/-- The local-module successor directories of `dir`: the joined paths of the
module calls whose source classifies as local (empty on a load error, where
the code aborts before recursing). -/
def localSucc (fs : ModuleFS) (dir : String) : List String :=
  match fs dir with
  | Except.error _ => []
  | Except.ok mcs =>
    (mcs.filter (fun mc => decide (DetectModuleSourceType mc.source = ModuleSourceType.Local))).map
      (fun mc => filepathJoin dir mc.source)

/-- The candidate-closure loop of `listTargets`: for each candidate in order,
compute `getModuleCalls`, abort on error, add the candidate itself
(`calls.Add(candidate)`), and record the pair. -/
def buildCandidateModules (fs : ModuleFS) (fuel : Nat) :
    List String → Option (Except Unit (List (String × List String)))
  | [] => some (Except.ok [])
  | c :: rest =>
    match getModuleCalls fs fuel c with
    | none => none
    | some (Except.error e) => some (Except.error e)
    | some (Except.ok calls) =>
      match buildCandidateModules fs fuel rest with
      | none => none
      | some (Except.error e) => some (Except.error e)
      | some (Except.ok restPairs) => some (Except.ok ((c, setAdd calls c) :: restPairs))

/-- The inner module test of `listTargets`: does the changed file equal a
module directory or lie strictly beneath one (`strings.HasPrefix(change,
module + string(filepath.Separator))`, separator `'/'`)?  The `break` of the
Go loop makes one match sufficient. -/
def moduleMatch (change : String) (modules : List String) : Bool :=
  modules.any (fun m => strStartsWith change (m ++ "/") || change == m)

/-- The target-accumulation loop of `listTargets`: for every changed file and
every candidate, add the candidate when some module of its closure matches. -/
def resolveTargets (candidateModules : List (String × List String))
    (changes : List String) : List String :=
  changes.foldl
    (fun targets change =>
      candidateModules.foldl
        (fun targets p =>
          if moduleMatch change p.2 then setAdd targets p.1 else targets)
        targets)
    []

/-- The CLI options of `cli.go` (`GlobalOptions`, plus the `BaseCommitSha`
field read by `listTargets`). -/
structure CLI where
  BaseBranch : String
  BaseCommitSha : String
  BaseDir : String
  SearchPath : String
  BaseTargets : String

/-- The run's external collaborators: `walkAt root` is the outcome of
`filepath.Walk(root)`, `changes` the outcome of `getChangedFilesFromGit`
(already joined against the base directory, as that function does), and `fs`
the structural parser's view used by `getModuleCalls`. -/
structure Env where
  walkAt : String → Except Unit (List TfFile)
  changes : Except Unit (List String)
  fs : ModuleFS

/-- `listTargets` of `app.go`: scan for candidates under
`filepath.Join(baseDir, searchPath)`, obtain the git change set, build every
candidate's closure, and resolve the targets; each failure aborts the run
with an error and no target set. -/
def listTargets (cli : CLI) (env : Env) (fuel : Nat) :
    Option (Except Unit (List String)) :=
  match findTargetCandidates (env.walkAt (filepathJoin cli.BaseDir cli.SearchPath)) with
  | Except.error e => some (Except.error e)
  | Except.ok targetCandidates =>
    match env.changes with
    | Except.error e => some (Except.error e)
    | Except.ok changes =>
      match buildCandidateModules env.fs fuel targetCandidates with
      | none => none
      | some (Except.error e) => some (Except.error e)
      | some (Except.ok candidateModules) =>
        some (Except.ok (resolveTargets candidateModules changes))

/-- The `slog` levels used by `getLogLevel`. -/
inductive SlogLevel where
  | Debug
  | Info
  | Warn
  | Error
deriving DecidableEq, Repr

/-- `getLogLevel` of `app.go`: the `LOG_LEVEL` environment value, defaulting
to `Info`. -/
def getLogLevel (logLevelEnv : String) : SlogLevel :=
  if logLevelEnv == "DEBUG" then SlogLevel.Debug
  else if logLevelEnv == "INFO" then SlogLevel.Info
  else if logLevelEnv == "WARN" then SlogLevel.Warn
  else if logLevelEnv == "ERROR" then SlogLevel.Error
  else SlogLevel.Info

/-- `App.Run` of `app.go`: configures the logger from `LOG_LEVEL` (first
component — the diagnostic side channel) and computes `listTargets` (second
component — everything written to the JSON output). -/
def AppRun (cli : CLI) (env : Env) (logLevelEnv : String) (fuel : Nat) :
    SlogLevel × Option (Except Unit (List String)) :=
  (getLogLevel logLevelEnv, listTargets cli env fuel)

/-- An environment with no `.tf` files, an empty change set and no modules
anywhere. -/
def envEmpty : Env :=
  ⟨fun _ => Except.ok [], Except.ok [], fun _ => Except.ok []⟩

/-- Modelled from the spec, §4.1: the classification rules as written there,
in the spec's priority order with first match winning (rule 1 local, rule 2
the `git::`/`hg::`/`s3::`/`gcs::` schemes, rule 3 http, rule 4 github, rule 5
`git@`, rule 6 the registry pattern with an arbitrary `//` suffix
(`registryClaimMatch`), rule 7 unknown). -/
def classifySpec (source : String) : ModuleSourceType :=
  if strStartsWith source "./" || strStartsWith source "../" then ModuleSourceType.Local
  else if strStartsWith source "git::" then ModuleSourceType.Git
  else if strStartsWith source "hg::" then ModuleSourceType.Mercurial
  else if strStartsWith source "s3::" then ModuleSourceType.S3
  else if strStartsWith source "gcs::" then ModuleSourceType.GCS
  else if strStartsWith source "http://" || strStartsWith source "https://" then ModuleSourceType.HTTP
  else if strStartsWith source "github.com/" then ModuleSourceType.GitHub
  else if strStartsWith source "git@" then ModuleSourceType.Git
  else if registryClaimMatch source then ModuleSourceType.Registry
  else ModuleSourceType.Unknown

/-- The classification cascade of the amended claim: identical to
`classifySpec` except that the registry rule requires the optional `//`
suffix to be newline-free (`registryAmendedMatch`). -/
def classifyAmended (source : String) : ModuleSourceType :=
  if strStartsWith source "./" || strStartsWith source "../" then ModuleSourceType.Local
  else if strStartsWith source "git::" then ModuleSourceType.Git
  else if strStartsWith source "hg::" then ModuleSourceType.Mercurial
  else if strStartsWith source "s3::" then ModuleSourceType.S3
  else if strStartsWith source "gcs::" then ModuleSourceType.GCS
  else if strStartsWith source "http://" || strStartsWith source "https://" then ModuleSourceType.HTTP
  else if strStartsWith source "github.com/" then ModuleSourceType.GitHub
  else if strStartsWith source "git@" then ModuleSourceType.Git
  else if registryAmendedMatch source then ModuleSourceType.Registry
  else ModuleSourceType.Unknown

/-- A directory `r` with one local and one git module reference. -/
def fsW : ModuleFS := fun d =>
  if d = "r" then Except.ok [⟨"m1", "./s"⟩, ⟨"m2", "git::x"⟩] else Except.ok []

/-- A directory `r` whose single local reference makes `getModuleCalls`
return a set not containing `r` itself. -/
def fsNoRoot : ModuleFS := fun d =>
  if d = "r" then Except.ok [⟨"m", "./s"⟩] else Except.ok []

/-- A filesystem on which every module load fails. -/
def fsErrAll : ModuleFS := fun _ => Except.error ()

example : getModuleCalls fsW 2 "r" = some (Except.ok ["r/s", "r"]) := rfl
example : getModuleCallsRec fsW 2 "r" = ["r/s"] := by decide
example : getModuleCalls fsNoRoot 2 "r" = some (Except.ok ["r/s"]) := rfl

/-- The environment of the C8 witness run: one well-formed candidate whose
module load then fails. -/
def envErr : Env :=
  ⟨fun _ => Except.ok [⟨"r/a/m.tf", true, true⟩], Except.ok [], fsErrAll⟩

/-- Default CLI options. -/
def cliDefault : CLI := ⟨"main", "", ".", ".", ""⟩

example : findTargetCandidates (envErr.walkAt ".") = Except.ok ["r/a"] := rfl
example : listTargets cliDefault envErr 1 = some (Except.error ()) := rfl

/-- A directory `a` whose single module reference `./` resolves back to `a`
itself (after path cleaning): a self-referential local module graph. -/
def fsSelf : ModuleFS := fun d =>
  if d = "a" then Except.ok [⟨"m", "./"⟩] else Except.ok []

/-- Directories `a` and `a/b` referencing each other through `./b` and `../`:
a mutually recursive local module graph. -/
def fsMut : ModuleFS := fun d =>
  if d = "a" then Except.ok [⟨"m", "./b"⟩]
  else if d = "a/b" then Except.ok [⟨"m", "../"⟩]
  else Except.ok []

/-- A filesystem with no module calls anywhere. -/
def fsNil : ModuleFS := fun _ => Except.ok []

/-- Walk result for the C2 witness run: root candidates `A` and `B`. -/
def filesC2 : List TfFile := [⟨"A/x.tf", true, true⟩, ⟨"B/y.tf", true, true⟩]

/-- Module view for the C2 witness run: `A` references `./modules/net`
locally, everything else is empty. -/
def fsC2 : ModuleFS := fun d =>
  if d = "A" then Except.ok [⟨"net", "./modules/net"⟩] else Except.ok []

/-- Environment of the C2 witness run: one changed file inside `A`'s local
submodule. -/
def envC2 : Env :=
  ⟨fun _ => Except.ok filesC2, Except.ok ["A/modules/net/main.tf"], fsC2⟩

example : findTargetCandidates (envC2.walkAt ".") = Except.ok ["A", "B"] := rfl
example : buildCandidateModules fsC2 2 ["A", "B"] =
    some (Except.ok [("A", ["A/modules/net", "A"]), ("B", ["B"])]) := rfl
example : listTargets cliDefault envC2 2 = some (Except.ok ["A"]) := rfl

theorem setAdd_mem (l : List String) (x y : String) :
    y ∈ setAdd l x ↔ y ∈ l ∨ y = x := by
  unfold setAdd
  by_cases h : x ∈ l
  · simp only [if_pos h]
    constructor
    · exact Or.inl
    · rintro (hy | rfl)
      · exact hy
      · exact h
  · simp [if_neg h]

/-- C1 (code-level behavior at the spec's failing scenario): `listTargets`
never reads `BaseTargets` — any two runs differing only in that field compute
the same result — and in particular with forced targets `["B"]`, an empty
change set and no candidates the emitted target set is empty, so the forced
path does not appear in the output. -/
theorem base_targets_ignored :
    (∀ bb sha bd sp bt1 bt2 env fuel,
      listTargets ⟨bb, sha, bd, sp, bt1⟩ env fuel =
        listTargets ⟨bb, sha, bd, sp, bt2⟩ env fuel) ∧
    listTargets ⟨"main", "", ".", ".", "[\"B\"]"⟩ envEmpty 1 =
      some (Except.ok []) :=
  ⟨fun _ _ _ _ _ _ _ _ => rfl, rfl⟩

/-- C3 counterexample: the claim's registry rule ("optionally followed by
`//` and a suffix") over-approximates the code.  Go RE2's `.` does not match
a newline and its `$` anchors only at the end of the text, so on the source
string `a/b/c//x` followed by a newline and `y` the code classifies
`unknown`, while the cascade as the claim states it yields `registry`. -/
theorem registry_newline_suffix_counterexample :
    DetectModuleSourceType "a/b/c//x\ny" = ModuleSourceType.Unknown ∧
    classifySpec "a/b/c//x\ny" = ModuleSourceType.Registry ∧
    ¬ DetectModuleSourceType "a/b/c//x\ny" = classifySpec "a/b/c//x\ny" := by
  decide

/-- C3 (amended): the source classifier is the total deterministic function
applying the rules in priority order with first match winning, where the
registry rule accepts three `/`-separated `[A-Za-z0-9_-]+` segments
optionally followed by `//` and a newline-free suffix; it coincides with the
amended cascade `classifyAmended` on every string and yields the stated
categories on representative inputs, including both sides of the newline
boundary of the registry suffix. -/
theorem detect_module_source_type_correct :
    (∀ source, DetectModuleSourceType source = classifyAmended source) ∧
    DetectModuleSourceType "./modules/net" = ModuleSourceType.Local ∧
    DetectModuleSourceType "../shared" = ModuleSourceType.Local ∧
    DetectModuleSourceType "hashicorp/consul/aws" = ModuleSourceType.Registry ∧
    DetectModuleSourceType "terraform-aws-modules/iam/aws//modules/iam-account" =
      ModuleSourceType.Registry ∧
    DetectModuleSourceType "github.com/a/b" = ModuleSourceType.GitHub ∧
    DetectModuleSourceType "git@github.com:a/b.git" = ModuleSourceType.Git ∧
    DetectModuleSourceType "a/b/c//x" = ModuleSourceType.Registry ∧
    DetectModuleSourceType "a/b/c//x\ny" = ModuleSourceType.Unknown :=
  ⟨fun _ => rfl, by decide, by decide, by decide, by decide, by decide, by decide,
   by decide, by decide⟩

/-- C9: the computed output of a run (the second component of `AppRun`, the
only data serialized to stdout) is identical for any two `LOG_LEVEL` values;
the level only selects the diagnostic verbosity (first component), which does
vary. -/
theorem log_level_never_affects_output :
    (∀ cli env fuel lvl1 lvl2,
      (AppRun cli env lvl1 fuel).2 = (AppRun cli env lvl2 fuel).2) ∧
    getLogLevel "DEBUG" = SlogLevel.Debug ∧
    getLogLevel "WARN" = SlogLevel.Warn ∧
    getLogLevel "ERROR" = SlogLevel.Error ∧
    getLogLevel "" = SlogLevel.Info ∧
    getLogLevel "verbose" = SlogLevel.Info :=
  ⟨fun _ _ _ _ _ => rfl, by decide, by decide, by decide, by decide, by decide⟩

theorem resolveInner_mem (change x : String) :
    ∀ (cm : List (String × List String)) (targets : List String),
    (x ∈ cm.foldl (fun t p => if moduleMatch change p.2 then setAdd t p.1 else t) targets ↔
      x ∈ targets ∨ ∃ p, p ∈ cm ∧ p.1 = x ∧ moduleMatch change p.2 = true)
  | [], targets => by simp
  | p :: rest, targets => by
    rw [List.foldl_cons, resolveInner_mem change x rest]
    by_cases hm : moduleMatch change p.2 = true
    · rw [if_pos hm, setAdd_mem]
      constructor
      · rintro ((hx | rfl) | ⟨q, hq, rfl, hqm⟩)
        · exact Or.inl hx
        · exact Or.inr ⟨p, List.mem_cons_self p rest, rfl, hm⟩
        · exact Or.inr ⟨q, List.mem_cons_of_mem p hq, rfl, hqm⟩
      · rintro (hx | ⟨q, hq, rfl, hqm⟩)
        · exact Or.inl (Or.inl hx)
        · rcases List.mem_cons.mp hq with rfl | hq
          · exact Or.inl (Or.inr rfl)
          · exact Or.inr ⟨q, hq, rfl, hqm⟩
    · rw [if_neg hm]
      constructor
      · rintro (hx | ⟨q, hq, rfl, hqm⟩)
        · exact Or.inl hx
        · exact Or.inr ⟨q, List.mem_cons_of_mem p hq, rfl, hqm⟩
      · rintro (hx | ⟨q, hq, rfl, hqm⟩)
        · exact Or.inl hx
        · rcases List.mem_cons.mp hq with rfl | hq
          · exact absurd hqm hm
          · exact Or.inr ⟨q, hq, rfl, hqm⟩

theorem resolveFold_mem (candidateModules : List (String × List String)) (x : String) :
    ∀ (changes : List String) (init : List String),
    (x ∈ changes.foldl
        (fun targets change =>
          candidateModules.foldl
            (fun targets p =>
              if moduleMatch change p.2 then setAdd targets p.1 else targets)
            targets)
        init ↔
      x ∈ init ∨ ∃ ch, ch ∈ changes ∧ ∃ p, p ∈ candidateModules ∧ p.1 = x ∧
        moduleMatch ch p.2 = true)
  | [], init => by simp
  | ch :: rest, init => by
    rw [List.foldl_cons, resolveFold_mem candidateModules x rest,
      resolveInner_mem ch x candidateModules init]
    constructor
    · rintro ((hx | ⟨p, hp, rfl, hpm⟩) | ⟨ch2, hch2, hrest⟩)
      · exact Or.inl hx
      · exact Or.inr ⟨ch, List.mem_cons_self ch rest, p, hp, rfl, hpm⟩
      · exact Or.inr ⟨ch2, List.mem_cons_of_mem ch hch2, hrest⟩
    · rintro (hx | ⟨ch2, hch2, hrest⟩)
      · exact Or.inl (Or.inl hx)
      · rcases List.mem_cons.mp hch2 with rfl | hch2
        · rcases hrest with ⟨p, hp, rfl, hpm⟩
          exact Or.inl (Or.inr ⟨p, hp, rfl, hpm⟩)
        · exact Or.inr ⟨ch2, hch2, hrest⟩

theorem resolveTargets_mem (candidateModules : List (String × List String))
    (changes : List String) (x : String) :
    x ∈ resolveTargets candidateModules changes ↔
      ∃ ch, ch ∈ changes ∧ ∃ p, p ∈ candidateModules ∧ p.1 = x ∧
        moduleMatch ch p.2 = true := by
  rw [resolveTargets, resolveFold_mem candidateModules x changes []]
  simp

/-- C2: for every candidate and every change set, the candidate is in the
target set of a successful run iff some changed file equals a member of that
candidate's recorded closure or lies strictly beneath one (string prefix
followed by the separator `/`, via `moduleMatch`); changed files outside
every closure contribute nothing and cause no error, fan-out to several
candidates is just several witnesses of the existential, and an empty change
set yields an empty target set. -/
theorem target_set_characterization
    (cli : CLI) (env : Env) (fuel : Nat) (cands chs : List String)
    (cm : List (String × List String)) (ts : List String) (x : String)
    (hw : findTargetCandidates (env.walkAt (filepathJoin cli.BaseDir cli.SearchPath)) =
      Except.ok cands)
    (hc : env.changes = Except.ok chs)
    (hb : buildCandidateModules env.fs fuel cands = some (Except.ok cm))
    (ht : listTargets cli env fuel = some (Except.ok ts)) :
    (x ∈ ts ↔ ∃ ch, ch ∈ chs ∧ ∃ p, p ∈ cm ∧ p.1 = x ∧ moduleMatch ch p.2 = true) ∧
    resolveTargets cm [] = [] := by
  simp only [listTargets, hw, hc, hb] at ht
  have hts : resolveTargets cm chs = ts := by
    simpa using ht
  subst hts
  exact ⟨resolveTargets_mem cm chs x, rfl⟩

theorem scanFold_mem (d : String) :
    ∀ (files : List TfFile) (acc : List String),
    (d ∈ files.foldl
        (fun acc f =>
          if strEndsWith f.path ".tf" && f.parseOk && f.hasTfBlock then
            setAdd acc (filepathDir f.path)
          else acc) acc ↔
      d ∈ acc ∨ ∃ f, f ∈ files ∧
        (strEndsWith f.path ".tf" && f.parseOk && f.hasTfBlock) = true ∧
        filepathDir f.path = d)
  | [], acc => by simp
  | f :: rest, acc => by
    rw [List.foldl_cons, scanFold_mem d rest]
    by_cases hf : (strEndsWith f.path ".tf" && f.parseOk && f.hasTfBlock) = true
    · rw [if_pos hf, setAdd_mem]
      constructor
      · rintro ((hd | rfl) | ⟨g, hg, hgc, hgd⟩)
        · exact Or.inl hd
        · exact Or.inr ⟨f, List.mem_cons_self f rest, hf, rfl⟩
        · exact Or.inr ⟨g, List.mem_cons_of_mem f hg, hgc, hgd⟩
      · rintro (hd | ⟨g, hg, hgc, hgd⟩)
        · exact Or.inl (Or.inl hd)
        · rcases List.mem_cons.mp hg with rfl | hg
          · exact Or.inl (Or.inr hgd.symm)
          · exact Or.inr ⟨g, hg, hgc, hgd⟩
    · rw [if_neg hf]
      constructor
      · rintro (hd | ⟨g, hg, hgc, hgd⟩)
        · exact Or.inl hd
        · exact Or.inr ⟨g, List.mem_cons_of_mem f hg, hgc, hgd⟩
      · rintro (hd | ⟨g, hg, hgc, hgd⟩)
        · exact Or.inl hd
        · rcases List.mem_cons.mp hg with rfl | hg
          · exact absurd hgc hf
          · exact Or.inr ⟨g, hg, hgc, hgd⟩

/-- C7: a scan over a walkable tree always succeeds — a file that fails
structural parsing (or lacks the marker block) is merely skipped — and a
directory is in the result exactly when some `.tf` file in it parses and
declares a `terraform` block (so other files of the directory may still
qualify it) and the directory is not a terragrunt cache; the scan fails
exactly when the walk itself fails. -/
theorem scan_parse_failures_nonfatal (files : List TfFile) (d : String) :
    findTargetCandidates (Except.error ()) = Except.error () ∧
    ∃ ds, findTargetCandidates (Except.ok files) = Except.ok ds ∧
      (d ∈ ds ↔
        (∃ f, f ∈ files ∧
          (strEndsWith f.path ".tf" && f.parseOk && f.hasTfBlock) = true ∧
          filepathDir f.path = d) ∧
        strContains d ".terragrunt-cache" = false) := by
  have h : findTargetCandidates (Except.ok files) =
      Except.ok ((files.foldl
        (fun acc f =>
          if strEndsWith f.path ".tf" && f.parseOk && f.hasTfBlock then
            setAdd acc (filepathDir f.path)
          else acc) []).filter (fun d2 => !(strContains d2 ".terragrunt-cache"))) := rfl
  refine ⟨rfl, _, h, ?_⟩
  rw [List.mem_filter, scanFold_mem d files []]
  simp [Bool.not_eq_true']

theorem goCallsList_mem (recur : String → Option (Except Unit (List String)))
    (dir : String) (mcs : List ModuleCall) :
    ∀ (l : List String), goCallsList recur dir mcs = some (Except.ok l) →
    ∀ x, (x ∈ l ↔ ∃ mc, mc ∈ mcs ∧
      ((¬ DetectModuleSourceType mc.source = ModuleSourceType.Local ∧ x = dir) ∨
       (DetectModuleSourceType mc.source = ModuleSourceType.Local ∧
         (x = filepathJoin dir mc.source ∨
          ∃ deps, recur (filepathJoin dir mc.source) = some (Except.ok deps) ∧
            x ∈ deps)))) := by
  induction mcs with
  | nil =>
    intro l h x
    simp only [goCallsList, Option.some.injEq, Except.ok.injEq] at h
    subst h
    simp
  | cons mc rest ih =>
    intro l h x
    by_cases hloc : DetectModuleSourceType mc.source = ModuleSourceType.Local
    · rw [goCallsList, if_pos hloc] at h
      cases hrec : recur (filepathJoin dir mc.source) with
      | none => simp [hrec] at h
      | some r =>
        cases r with
        | error e => simp [hrec] at h
        | ok deps =>
          simp only [hrec] at h
          cases hrest : goCallsList recur dir rest with
          | none => simp [hrest] at h
          | some r2 =>
            cases r2 with
            | error e2 => simp [hrest] at h
            | ok restL =>
              simp only [hrest, Option.some.injEq, Except.ok.injEq] at h
              subst h
              have ihx := ih restL hrest x
              constructor
              · intro hx
                rcases List.mem_append.mp hx with hd | ht
                · exact ⟨mc, List.mem_cons_self mc rest,
                    Or.inr ⟨hloc, Or.inr ⟨deps, hrec, hd⟩⟩⟩
                · rcases List.mem_cons.mp ht with rfl | ht2
                  · exact ⟨mc, List.mem_cons_self mc rest, Or.inr ⟨hloc, Or.inl rfl⟩⟩
                  · rcases ihx.mp ht2 with ⟨mc2, hmc2, hcase⟩
                    exact ⟨mc2, List.mem_cons_of_mem mc hmc2, hcase⟩
              · rintro ⟨mc2, hmc2, hcase⟩
                rcases List.mem_cons.mp hmc2 with rfl | hmc2
                · rcases hcase with ⟨hnl, _⟩ | ⟨_, hor⟩
                  · exact absurd hloc hnl
                  · rcases hor with rfl | ⟨deps2, hdeps2, hxd⟩
                    · exact List.mem_append.mpr
                        (Or.inr (List.mem_cons_self _ restL))
                    · rw [hrec] at hdeps2
                      simp only [Option.some.injEq, Except.ok.injEq] at hdeps2
                      subst hdeps2
                      exact List.mem_append.mpr (Or.inl hxd)
                · exact List.mem_append.mpr
                    (Or.inr (List.mem_cons_of_mem _ (ihx.mpr ⟨mc2, hmc2, hcase⟩)))
    · rw [goCallsList, if_neg hloc] at h
      cases hrest : goCallsList recur dir rest with
      | none => simp [hrest] at h
      | some r2 =>
        cases r2 with
        | error e2 => simp [hrest] at h
        | ok restL =>
          simp only [hrest, Option.some.injEq, Except.ok.injEq] at h
          subst h
          have ihx := ih restL hrest x
          constructor
          · intro hx
            rcases List.mem_cons.mp hx with rfl | ht
            · exact ⟨mc, List.mem_cons_self mc rest, Or.inl ⟨hloc, rfl⟩⟩
            · rcases ihx.mp ht with ⟨mc2, hmc2, hcase⟩
              exact ⟨mc2, List.mem_cons_of_mem mc hmc2, hcase⟩
          · rintro ⟨mc2, hmc2, hcase⟩
            rcases List.mem_cons.mp hmc2 with rfl | hmc2
            · rcases hcase with ⟨_, hxd⟩ | ⟨hl, _⟩
              · rw [hxd]
                exact List.mem_cons_self _ restL
              · exact absurd hl hloc
            · exact List.mem_cons_of_mem _ (ihx.mpr ⟨mc2, hmc2, hcase⟩)

theorem goRecList_mem (recur : String → Option (Except Unit (List String)))
    (recurArgs : String → List String) (dir : String) (mcs : List ModuleCall) :
    ∀ (r : List String), goCallsList recur dir mcs = some (Except.ok r) →
    ∀ d, (d ∈ goRecList recur recurArgs dir mcs ↔ ∃ mc, mc ∈ mcs ∧
      DetectModuleSourceType mc.source = ModuleSourceType.Local ∧
      (d = filepathJoin dir mc.source ∨ d ∈ recurArgs (filepathJoin dir mc.source))) := by
  induction mcs with
  | nil =>
    intro r h d
    simp [goRecList]
  | cons mc rest ih =>
    intro r h d
    by_cases hloc : DetectModuleSourceType mc.source = ModuleSourceType.Local
    · rw [goCallsList, if_pos hloc] at h
      cases hrec : recur (filepathJoin dir mc.source) with
      | none => simp [hrec] at h
      | some r1 =>
        cases r1 with
        | error e => simp [hrec] at h
        | ok deps =>
          simp only [hrec] at h
          cases hrest : goCallsList recur dir rest with
          | none => simp [hrest] at h
          | some r2 =>
            cases r2 with
            | error e2 => simp [hrest] at h
            | ok restL =>
              rw [goRecList, if_pos hloc, hrec]
              have ihd := ih restL hrest d
              constructor
              · intro hd
                rcases List.mem_append.mp hd with hd1 | hd2
                · rcases List.mem_cons.mp hd1 with rfl | hd1
                  · exact ⟨mc, List.mem_cons_self mc rest, hloc, Or.inl rfl⟩
                  · exact ⟨mc, List.mem_cons_self mc rest, hloc, Or.inr hd1⟩
                · rcases ihd.mp hd2 with ⟨mc2, hmc2, hl2, hc2⟩
                  exact ⟨mc2, List.mem_cons_of_mem mc hmc2, hl2, hc2⟩
              · rintro ⟨mc2, hmc2, hl2, hc2⟩
                rcases List.mem_cons.mp hmc2 with rfl | hmc2
                · rcases hc2 with rfl | hc2
                  · exact List.mem_append.mpr
                      (Or.inl (List.mem_cons_self _ _))
                  · exact List.mem_append.mpr
                      (Or.inl (List.mem_cons_of_mem _ hc2))
                · exact List.mem_append.mpr
                    (Or.inr (ihd.mpr ⟨mc2, hmc2, hl2, hc2⟩))
    · rw [goCallsList, if_neg hloc] at h
      cases hrest : goCallsList recur dir rest with
      | none => simp [hrest] at h
      | some r2 =>
        cases r2 with
        | error e2 => simp [hrest] at h
        | ok restL =>
          rw [goRecList, if_neg hloc]
          have ihd := ih restL hrest d
          constructor
          · intro hd
            rcases ihd.mp hd with ⟨mc2, hmc2, hl2, hc2⟩
            exact ⟨mc2, List.mem_cons_of_mem mc hmc2, hl2, hc2⟩
          · rintro ⟨mc2, hmc2, hl2, hc2⟩
            rcases List.mem_cons.mp hmc2 with rfl | hmc2
            · exact absurd hl2 hloc
            · exact ihd.mpr ⟨mc2, hmc2, hl2, hc2⟩

theorem getModuleCalls_step_mem (fs : ModuleFS) (fuel : Nat) (dir : String)
    (mcs : List ModuleCall) (l : List String) (x : String)
    (hfs : fs dir = Except.ok mcs)
    (hok : getModuleCalls fs (fuel + 1) dir = some (Except.ok l)) :
    x ∈ l ↔ ∃ mc, mc ∈ mcs ∧
      ((¬ DetectModuleSourceType mc.source = ModuleSourceType.Local ∧ x = dir) ∨
       (DetectModuleSourceType mc.source = ModuleSourceType.Local ∧
         (x = filepathJoin dir mc.source ∨
          ∃ deps, getModuleCalls fs fuel (filepathJoin dir mc.source) =
              some (Except.ok deps) ∧ x ∈ deps))) := by
  rw [getModuleCalls, hfs] at hok
  exact goCallsList_mem (fun d => getModuleCalls fs fuel d) dir mcs l hok x

theorem getModuleCallsRec_step_mem (fs : ModuleFS) (fuel : Nat) (dir : String)
    (mcs : List ModuleCall) (l : List String) (d : String)
    (hfs : fs dir = Except.ok mcs)
    (hok : getModuleCalls fs (fuel + 1) dir = some (Except.ok l)) :
    d ∈ getModuleCallsRec fs (fuel + 1) dir ↔ ∃ mc, mc ∈ mcs ∧
      DetectModuleSourceType mc.source = ModuleSourceType.Local ∧
      (d = filepathJoin dir mc.source ∨
       d ∈ getModuleCallsRec fs fuel (filepathJoin dir mc.source)) := by
  rw [getModuleCalls, hfs] at hok
  rw [getModuleCallsRec, hfs]
  exact goRecList_mem (fun d2 => getModuleCalls fs fuel d2)
    (fun d2 => getModuleCallsRec fs fuel d2) dir mcs l hok d

/-- C4: in a successfully computed closure step, the directories passed to the
recursive `getModuleCalls` call are exactly the join of the current directory
with the sources classified `local` (and their own recursion targets) — a
reference of any other category never triggers recursion into a path derived
from its source — and a non-local reference contributes only the declaring
directory itself to the closure. -/
theorem nonlocal_sources_never_recursed (fs : ModuleFS) (fuel : Nat) (dir : String)
    (mcs : List ModuleCall) (l : List String) (d x : String)
    (hfs : fs dir = Except.ok mcs)
    (hok : getModuleCalls fs (fuel + 1) dir = some (Except.ok l)) :
    (d ∈ getModuleCallsRec fs (fuel + 1) dir ↔ ∃ mc, mc ∈ mcs ∧
      DetectModuleSourceType mc.source = ModuleSourceType.Local ∧
      (d = filepathJoin dir mc.source ∨
       d ∈ getModuleCallsRec fs fuel (filepathJoin dir mc.source))) ∧
    (x ∈ l ↔ ∃ mc, mc ∈ mcs ∧
      ((¬ DetectModuleSourceType mc.source = ModuleSourceType.Local ∧ x = dir) ∨
       (DetectModuleSourceType mc.source = ModuleSourceType.Local ∧
         (x = filepathJoin dir mc.source ∨
          ∃ deps, getModuleCalls fs fuel (filepathJoin dir mc.source) =
              some (Except.ok deps) ∧ x ∈ deps)))) :=
  ⟨getModuleCallsRec_step_mem fs fuel dir mcs l d hfs hok,
   getModuleCalls_step_mem fs fuel dir mcs l x hfs hok⟩

theorem nonlocal_sources_never_recursed_witness :
    ("r/s" ∈ getModuleCallsRec fsW (1 + 1) "r" ↔
      ∃ mc, mc ∈ [(⟨"m1", "./s"⟩ : ModuleCall), ⟨"m2", "git::x"⟩] ∧
        DetectModuleSourceType mc.source = ModuleSourceType.Local ∧
        ("r/s" = filepathJoin "r" mc.source ∨
         "r/s" ∈ getModuleCallsRec fsW 1 (filepathJoin "r" mc.source))) ∧
    ("r" ∈ (["r/s", "r"] : List String) ↔
      ∃ mc, mc ∈ [(⟨"m1", "./s"⟩ : ModuleCall), ⟨"m2", "git::x"⟩] ∧
        ((¬ DetectModuleSourceType mc.source = ModuleSourceType.Local ∧ "r" = "r") ∨
         (DetectModuleSourceType mc.source = ModuleSourceType.Local ∧
           ("r" = filepathJoin "r" mc.source ∨
            ∃ deps, getModuleCalls fsW 1 (filepathJoin "r" mc.source) =
                some (Except.ok deps) ∧ "r" ∈ deps)))) :=
  nonlocal_sources_never_recursed fsW 1 "r" [⟨"m1", "./s"⟩, ⟨"m2", "git::x"⟩]
    ["r/s", "r"] "r/s" "r" rfl rfl

theorem buildCandidateModules_root_mem (fs : ModuleFS) (fuel : Nat) :
    ∀ (cands : List String) (cm : List (String × List String)) (c : String)
      (ms : List String),
    buildCandidateModules fs fuel cands = some (Except.ok cm) →
    (c, ms) ∈ cm → c ∈ ms
  | [], cm, c, ms => fun h1 h2 => by
    simp only [buildCandidateModules, Option.some.injEq, Except.ok.injEq] at h1
    subst h1
    exact absurd h2 (List.not_mem_nil _)
  | c0 :: rest, cm, c, ms => fun h1 h2 => by
    rw [buildCandidateModules] at h1
    cases hg : getModuleCalls fs fuel c0 with
    | none => simp [hg] at h1
    | some r =>
      cases r with
      | error e => simp [hg] at h1
      | ok calls =>
        simp only [hg] at h1
        cases hb2 : buildCandidateModules fs fuel rest with
        | none => simp [hb2] at h1
        | some r2 =>
          cases r2 with
          | error e2 => simp [hb2] at h1
          | ok restPairs =>
            simp only [hb2, Option.some.injEq, Except.ok.injEq] at h1
            subst h1
            rcases List.mem_cons.mp h2 with heq | h2r
            · have hcc : c = c0 := congrArg Prod.fst heq
              have hmm2 : ms = setAdd calls c0 := congrArg Prod.snd heq
              rw [hmm2, hcc]
              exact (setAdd_mem calls c0 c0).mpr (Or.inr rfl)
            · exact buildCandidateModules_root_mem fs fuel rest restPairs c ms hb2 h2r

/-- C5: every entry of the candidate-to-closure map contains its own
candidate — the inclusion `calls.Add(candidate)` is performed by the caller
in `listTargets` — while `getModuleCalls` itself can return a set not
containing the directory it was called on, witnessed by `fsNoRoot`. -/
theorem closure_map_contains_root (fs : ModuleFS) (fuel : Nat)
    (cands : List String) (cm : List (String × List String)) (c : String)
    (ms : List String)
    (h1 : buildCandidateModules fs fuel cands = some (Except.ok cm))
    (h2 : (c, ms) ∈ cm) :
    c ∈ ms ∧ getModuleCalls fsNoRoot 2 "r" = some (Except.ok ["r/s"]) ∧
      "r" ∉ (["r/s"] : List String) :=
  ⟨buildCandidateModules_root_mem fs fuel cands cm c ms h1 h2, rfl, by decide⟩

theorem closure_map_contains_root_witness :
    "r" ∈ (["r/s", "r"] : List String) ∧
      getModuleCalls fsNoRoot 2 "r" = some (Except.ok ["r/s"]) ∧
      "r" ∉ (["r/s"] : List String) :=
  closure_map_contains_root fsNoRoot 2 ["r"] [("r", ["r/s", "r"])] "r" ["r/s", "r"]
    rfl (by decide)

/-- C8: when the closure computation of any scanned candidate reports a
module-load error, `listTargets` returns that error and emits no target
set — there is no partial output — and a directory whose structural parse
reports errors makes `getModuleCalls` fail immediately. -/
theorem module_load_error_aborts_run (cli : CLI) (env : Env) (fuel : Nat)
    (cands chs : List String) (e : Unit) (fuel2 : Nat) (dir2 : String)
    (hw : findTargetCandidates (env.walkAt (filepathJoin cli.BaseDir cli.SearchPath)) =
      Except.ok cands)
    (hc : env.changes = Except.ok chs)
    (hb : buildCandidateModules env.fs fuel cands = some (Except.error e)) :
    listTargets cli env fuel = some (Except.error e) ∧
    getModuleCalls fsErrAll (fuel2 + 1) dir2 = some (Except.error ()) := by
  refine ⟨?_, rfl⟩
  simp only [listTargets, hw, hc, hb]

theorem module_load_error_aborts_run_witness :
    listTargets cliDefault envErr 1 = some (Except.error ()) ∧
    getModuleCalls fsErrAll (0 + 1) "z" = some (Except.error ()) :=
  module_load_error_aborts_run cliDefault envErr 1 ["r/a"] [] () 0 "z" rfl rfl rfl

/-- C10: the classifier sends the empty string and every absolute path
(leading `/`) to `unknown` — in particular not to `local` — and hence the
loop of the closure builder records no recursion target for a module
reference whose source is an absolute path. -/
theorem absolute_and_empty_sources_unknown :
    DetectModuleSourceType "" = ModuleSourceType.Unknown ∧
    (∀ cs : List Char,
      DetectModuleSourceType (String.mk ('/' :: cs)) = ModuleSourceType.Unknown) ∧
    (∀ recur recurArgs dir mname cs rest,
      goRecList recur recurArgs dir (⟨mname, String.mk ('/' :: cs)⟩ :: rest) =
        goRecList recur recurArgs dir rest) :=
  ⟨rfl, fun _ => rfl, fun _ _ _ _ _ _ => rfl⟩

theorem getModuleCalls_succ (fs : ModuleFS) (fuel : Nat) (dir : String) :
    getModuleCalls fs (fuel + 1) dir =
      match fs dir with
      | Except.error _ => some (Except.error ())
      | Except.ok mcs => goCallsList (fun d => getModuleCalls fs fuel d) dir mcs := rfl

theorem goCallsList_mono (recur1 recur2 : String → Option (Except Unit (List String)))
    (hmono : ∀ d r, recur1 d = some r → recur2 d = some r) (dir : String) :
    ∀ (mcs : List ModuleCall) (r : Except Unit (List String)),
    goCallsList recur1 dir mcs = some r → goCallsList recur2 dir mcs = some r
  | [], r => fun h => h
  | mc :: rest, r => fun h => by
    by_cases hloc : DetectModuleSourceType mc.source = ModuleSourceType.Local
    · rw [goCallsList, if_pos hloc] at h ⊢
      cases hrec : recur1 (filepathJoin dir mc.source) with
      | none => simp [hrec] at h
      | some r1 =>
        rw [hmono _ _ hrec]
        simp only [hrec] at h
        cases r1 with
        | error e => exact h
        | ok deps =>
          cases hrest : goCallsList recur1 dir rest with
          | none => simp [hrest] at h
          | some r2 =>
            rw [goCallsList_mono recur1 recur2 hmono dir rest r2 hrest]
            simp only [hrest] at h
            exact h
    · rw [goCallsList, if_neg hloc] at h ⊢
      cases hrest : goCallsList recur1 dir rest with
      | none => simp [hrest] at h
      | some r2 =>
        rw [goCallsList_mono recur1 recur2 hmono dir rest r2 hrest]
        simp only [hrest] at h
        exact h

theorem getModuleCalls_mono (fs : ModuleFS) :
    ∀ (fuel : Nat) (d : String) (r : Except Unit (List String)),
    getModuleCalls fs fuel d = some r → getModuleCalls fs (fuel + 1) d = some r
  | 0, d, r => fun h => absurd h (by simp [getModuleCalls])
  | fuel + 1, d, r => fun h => by
    rw [getModuleCalls_succ] at h ⊢
    cases hfs : fs d with
    | error e => simp only [hfs] at h ⊢; exact h
    | ok mcs =>
      simp only [hfs] at h ⊢
      exact goCallsList_mono _ _
        (fun d2 r2 h2 => getModuleCalls_mono fs fuel d2 r2 h2) d mcs r h

theorem getModuleCalls_mono_le (fs : ModuleFS) (fuel fuel2 : Nat) (d : String)
    (r : Except Unit (List String)) (hle : fuel ≤ fuel2)
    (h : getModuleCalls fs fuel d = some r) :
    getModuleCalls fs fuel2 d = some r := by
  rcases Nat.exists_eq_add_of_le hle with ⟨k, rfl⟩
  clear hle
  induction k with
  | zero => exact h
  | succ n ihn => exact getModuleCalls_mono fs (fuel + n) d r ihn

theorem exists_common_fuel (fs : ModuleFS) (dir : String) :
    ∀ (mcs : List ModuleCall),
    (∀ mc, mc ∈ mcs → DetectModuleSourceType mc.source = ModuleSourceType.Local →
      ∃ fuel r, getModuleCalls fs fuel (filepathJoin dir mc.source) = some r) →
    ∃ n, ∀ mc, mc ∈ mcs → DetectModuleSourceType mc.source = ModuleSourceType.Local →
      ∃ r, getModuleCalls fs n (filepathJoin dir mc.source) = some r
  | [] => fun _ => ⟨0, fun mc hmc => absurd hmc (List.not_mem_nil mc)⟩
  | mc :: rest => fun h => by
    obtain ⟨n, hn⟩ := exists_common_fuel fs dir rest
      (fun mc2 hmc2 hl2 => h mc2 (List.mem_cons_of_mem mc hmc2) hl2)
    by_cases hloc : DetectModuleSourceType mc.source = ModuleSourceType.Local
    · obtain ⟨f1, r1, hr1⟩ := h mc (List.mem_cons_self mc rest) hloc
      refine ⟨max f1 n, fun mc2 hmc2 hl2 => ?_⟩
      rcases List.mem_cons.mp hmc2 with rfl | hmc2
      · exact ⟨r1, getModuleCalls_mono_le fs f1 (max f1 n) _ r1 (Nat.le_max_left f1 n) hr1⟩
      · obtain ⟨r2, hr2⟩ := hn mc2 hmc2 hl2
        exact ⟨r2, getModuleCalls_mono_le fs n (max f1 n) _ r2 (Nat.le_max_right f1 n) hr2⟩
    · refine ⟨n, fun mc2 hmc2 hl2 => ?_⟩
      rcases List.mem_cons.mp hmc2 with rfl | hmc2
      · exact absurd hl2 hloc
      · exact hn mc2 hmc2 hl2

theorem goCallsList_total (recur : String → Option (Except Unit (List String)))
    (dir : String) :
    ∀ (mcs : List ModuleCall),
    (∀ mc, mc ∈ mcs → DetectModuleSourceType mc.source = ModuleSourceType.Local →
      ∃ r, recur (filepathJoin dir mc.source) = some r) →
    ∃ r, goCallsList recur dir mcs = some r
  | [] => fun _ => ⟨Except.ok [], rfl⟩
  | mc :: rest => fun h => by
    obtain ⟨r2, hr2⟩ := goCallsList_total recur dir rest
      (fun mc2 hmc2 hl2 => h mc2 (List.mem_cons_of_mem mc hmc2) hl2)
    by_cases hloc : DetectModuleSourceType mc.source = ModuleSourceType.Local
    · obtain ⟨r1, hr1⟩ := h mc (List.mem_cons_self mc rest) hloc
      rw [goCallsList, if_pos hloc, hr1]
      cases r1 with
      | error e => exact ⟨Except.error e, rfl⟩
      | ok deps =>
        rw [hr2]
        cases r2 with
        | error e => exact ⟨Except.error e, rfl⟩
        | ok restL => exact ⟨Except.ok (deps ++ filepathJoin dir mc.source :: restL), rfl⟩
    · rw [goCallsList, if_neg hloc, hr2]
      cases r2 with
      | error e => exact ⟨Except.error e, rfl⟩
      | ok restL => exact ⟨Except.ok (dir :: restL), rfl⟩

theorem getModuleCalls_terminates (fs : ModuleFS) (d : String)
    (hacc : Acc (fun x y => x ∈ localSucc fs y) d) :
    ∃ fuel r, getModuleCalls fs fuel d = some r := by
  induction hacc with
  | intro d hd ih =>
    cases hfs : fs d with
    | error e =>
      refine ⟨0 + 1, Except.error (), ?_⟩
      rw [getModuleCalls_succ, hfs]
    | ok mcs =>
      have hch : ∀ mc, mc ∈ mcs →
          DetectModuleSourceType mc.source = ModuleSourceType.Local →
          ∃ fuel r, getModuleCalls fs fuel (filepathJoin d mc.source) = some r := by
        intro mc hmc hl
        apply ih
        simp only [localSucc, hfs]
        exact List.mem_map.mpr ⟨mc, List.mem_filter.mpr ⟨hmc, decide_eq_true hl⟩, rfl⟩
      obtain ⟨n, hn⟩ := exists_common_fuel fs d mcs hch
      obtain ⟨r, hr⟩ := goCallsList_total (fun d2 => getModuleCalls fs n d2) d mcs
        (fun mc hmc hl => hn mc hmc hl)
      refine ⟨n + 1, r, ?_⟩
      rw [getModuleCalls_succ, hfs]
      exact hr

theorem fsSelf_diverges : ∀ fuel, getModuleCalls fsSelf fuel "a" = none := by
  intro fuel
  induction fuel with
  | zero => rfl
  | succ n ihn =>
    have h1 : getModuleCalls fsSelf (n + 1) "a" =
        match getModuleCalls fsSelf n "a" with
        | none => none
        | some (Except.error e) => some (Except.error e)
        | some (Except.ok deps) => some (Except.ok (deps ++ ["a"])) := rfl
    rw [h1, ihn]

theorem fsMut_diverges : ∀ fuel,
    getModuleCalls fsMut fuel "a" = none ∧ getModuleCalls fsMut fuel "a/b" = none := by
  intro fuel
  induction fuel with
  | zero => exact ⟨rfl, rfl⟩
  | succ n ihn =>
    constructor
    · have h1 : getModuleCalls fsMut (n + 1) "a" =
          match getModuleCalls fsMut n "a/b" with
          | none => none
          | some (Except.error e) => some (Except.error e)
          | some (Except.ok deps) => some (Except.ok (deps ++ ["a/b"])) := rfl
      rw [h1, ihn.2]
    · have h2 : getModuleCalls fsMut (n + 1) "a/b" =
          match getModuleCalls fsMut n "a" with
          | none => none
          | some (Except.error e) => some (Except.error e)
          | some (Except.ok deps) => some (Except.ok (deps ++ ["a"])) := rfl
      rw [h2, ihn.1]

/-- C6: the closure builder has no cycle guard.  When the local-reference
successor graph below `d` admits no infinite descending chain (`Acc`, the
well-founded rendering of an acyclic — and, on a real filesystem, finite —
local module graph), some finite recursion budget suffices and the
computation returns a result (a finite list); on the self-referential graph
`fsSelf` and the mutually recursive graph `fsMut` every budget is exhausted —
the recursion never terminates. -/
theorem closure_builder_no_cycle_detection (fs : ModuleFS) (d : String) (fuelC : Nat)
    (hacc : Acc (fun x y => x ∈ localSucc fs y) d) :
    (∃ fuel r, getModuleCalls fs fuel d = some r) ∧
    getModuleCalls fsSelf fuelC "a" = none ∧
    getModuleCalls fsMut fuelC "a" = none ∧
    getModuleCalls fsMut fuelC "a/b" = none :=
  ⟨getModuleCalls_terminates fs d hacc, fsSelf_diverges fuelC,
   (fsMut_diverges fuelC).1, (fsMut_diverges fuelC).2⟩

theorem closure_builder_no_cycle_detection_witness :
    (∃ fuel r, getModuleCalls fsNil fuel "x" = some r) ∧
    getModuleCalls fsSelf 5 "a" = none ∧
    getModuleCalls fsMut 5 "a" = none ∧
    getModuleCalls fsMut 5 "a/b" = none :=
  closure_builder_no_cycle_detection fsNil "x" 5
    (Acc.intro "x" (fun y hy => absurd hy (by simp [localSucc, fsNil])))

theorem target_set_characterization_witness :
    ("A" ∈ (["A"] : List String) ↔
      ∃ ch, ch ∈ (["A/modules/net/main.tf"] : List String) ∧
        ∃ p, p ∈ ([("A", ["A/modules/net", "A"]), ("B", ["B"])] :
            List (String × List String)) ∧
          p.1 = "A" ∧ moduleMatch ch p.2 = true) ∧
    resolveTargets [("A", ["A/modules/net", "A"]), ("B", ["B"])] [] = [] :=
  target_set_characterization cliDefault envC2 2 ["A", "B"]
    ["A/modules/net/main.tf"] [("A", ["A/modules/net", "A"]), ("B", ["B"])]
    ["A"] "A" rfl rfl rfl rfl
